import Mathlib

/-!
# Verification of the delegation-chain core (`packages/authentication/src/identity/delegation.ts`)

This file is a shallow embedding, in Lean 4, of the delegation-chain
construction/serialization logic and the delegation-aware request-signing
wrapper of the repository: `DelegationChain`, `DelegationIdentity`, the
canonical signing procedure with its two domain separators, and the JSON
(de)serialization with its validation.

Modelling conventions:
* byte blobs (`BinaryBlob`, `DerEncodedBlob`, `Buffer`) are `List Nat`
  (each entry a byte value);
* the external canonical request-id digest (`requestIdOf`) is an opaque
  function parameter;
* signer capabilities (`SignIdentity`) are records holding a `sign`
  function and a public key; asynchronous signing is modelled by the pure
  result of the signer's `sign` function (failure of the exterior signer is
  out of scope of the claims treated here);
* `BigNumber` values are modelled as arbitrary-precision integers or NaN;
* JS exceptions are modelled with `Except String`.
-/

/-- A byte string (`BinaryBlob` / `Buffer` in the source). Each entry is one
byte value. -/
abbrev Blob := List Nat

/-- UTF-8 bytes of an ASCII string: for ASCII text every code point is its own
single byte, which is how `TextEncoder().encode` produces the two domain
separator constants in the source. -/
def asciiBytes (s : String) : Blob :=
  s.data.map Char.toNat

/-- `const domainSeparator = new TextEncoder().encode('\x1Aic-request-auth-delegation')`
(delegation.ts line 16). -/
def domainSeparator : Blob := asciiBytes "\x1Aic-request-auth-delegation"

/-- `const requestDomainSeparator = Buffer.from(new TextEncoder().encode('\x0Aic-request'))`
(delegation.ts line 17). -/
def requestDomainSeparator : Blob := asciiBytes "\x0Aic-request"

/-- An IC principal (recipient identifier). Modelled from the spec: the
external `Principal` primitive of `@dfinity/agent` is treated through its
interface only (`fromText` / `toText` convert between the identifier and its
canonical text form), so a principal is represented by that text form. -/
structure Principal where
  text : String
deriving DecidableEq, Repr

/-- `Principal.fromText` (external primitive, modelled from the spec as the
inverse of `toText` on canonical identifier text). -/
def Principal.fromText (s : String) : Principal := ⟨s⟩

/-- `Principal.toText` (external primitive). -/
def Principal.toText (p : Principal) : String := p.text

/-- A `BigNumber` (bignumber.js) value as used here: an arbitrary-precision
integer, or the not-a-number value produced by parsing an invalid input. -/
inductive BigNum where
  | nan
  | int (i : Int)
deriving DecidableEq, Repr

/-- `interface Delegation` (delegation.ts lines 32-36): one authorization
step. `pubkey` is the DER-encoded delegate key, `expiration` the nanosecond
timestamp as a `BigNumber`, `targets` the optional recipient restriction. -/
structure Delegation where
  pubkey : Blob
  expiration : BigNum
  targets : Option (List Principal)
deriving DecidableEq, Repr

/-- `interface SignedDelegation` (delegation.ts lines 38-41). -/
structure SignedDelegation where
  delegation : Delegation
  signature : Blob
deriving DecidableEq, Repr

/-- A public-key capability (`PublicKey` of `@dfinity/agent`): exposes its
DER encoding. -/
structure PublicKey where
  toDer : Blob
deriving DecidableEq, Repr

/-- A signer capability (`SignIdentity` of `@dfinity/agent`): an async,
possibly hardware-backed `sign` plus the signer's own public key. The model
records the signer's observable behaviour as a pure function from the signed
bytes to the produced signature. -/
structure SignIdentity where
  sign : Blob → Blob
  getPublicKey : PublicKey

/-- `class DelegationChain` (delegation.ts lines 82-184): the ordered
sequence of signed delegations plus the root public key (`publicKey` field
in the source, DER-encoded). -/
structure DelegationChain where
  delegations : List SignedDelegation
  publicKey : Blob
deriving DecidableEq, Repr

/-- `signDelegation` (delegation.ts lines 19-30): sign the concatenation of
the delegation domain separator and the canonical request-id digest of the
delegation. `requestId` is the external `requestIdOf` digest primitive. -/
def signDelegation (requestId : Delegation → Blob) (innerDelegation : Delegation)
    (identity : SignIdentity) : Blob :=
  identity.sign (domainSeparator ++ requestId innerDelegation)

/-- `_createSingleDelegation` (delegation.ts lines 58-75): build the
Delegation record — `pubkey = to.toDer()`, `expiration = new
BigNumber(+expiration).times(1000000)` with `expirationMs` the millisecond
epoch value of the `Date`, `targets` spread in only when provided — and pair
it with the delegating identity's signature over it. -/
def createSingleDelegation (requestId : Delegation → Blob) (frm : SignIdentity)
    (toKey : PublicKey) (expirationMs : Int) (targets : Option (List Principal)) :
    SignedDelegation :=
  let delegation : Delegation :=
    { pubkey := toKey.toDer
      expiration := BigNum.int (expirationMs * 1000000)
      targets := targets }
  { delegation := delegation
    signature := signDelegation requestId delegation frm }

/-- `DelegationChain.create` (delegation.ts lines 112-124): produce one new
signed delegation (never passing targets), append it to the previous chain's
delegations (or start a fresh one-element sequence), and keep the previous
chain's root public key (or take `from.getPublicKey().toDer()`). -/
def DelegationChain.create (requestId : Delegation → Blob) (frm : SignIdentity)
    (toKey : PublicKey) (expirationMs : Int) (previous : Option DelegationChain) :
    DelegationChain :=
  let delegation := createSingleDelegation requestId frm toKey expirationMs none
  { delegations := (match previous with
      | some p => p.delegations
      | none => []) ++ [delegation]
    publicKey := match previous with
      | some p => p.publicKey
      | none => frm.getPublicKey.toDer }

/-- `class DelegationIdentity` (delegation.ts lines 192-234): composition of
the inner signer actually producing signatures with the delegation chain
whose root authority it presents. -/
structure DelegationIdentity where
  inner : SignIdentity
  chain : DelegationChain

/-- `DelegationIdentity.fromDelegation` (delegation.ts lines 198-200): pure
composition. -/
def DelegationIdentity.fromDelegation (key : SignIdentity)
    (delegation : DelegationChain) : DelegationIdentity :=
  ⟨key, delegation⟩

/-- `DelegationIdentity.getPublicKey` (delegation.ts lines 210-214): a
public-key capability whose `toDer()` returns the chain's root public key. -/
def DelegationIdentity.getPublicKey (d : DelegationIdentity) : PublicKey :=
  ⟨d.chain.publicKey⟩

/-- `DelegationIdentity.sign` (delegation.ts lines 215-217): delegate to the
inner signer. -/
def DelegationIdentity.sign (d : DelegationIdentity) (blob : Blob) : Blob :=
  d.inner.sign blob

/-- An outgoing request before transformation (`HttpAgentRequest`): a `body`
plus the remaining top-level fields, the latter kept abstract as a value of
an arbitrary type `φ` since `transformRequest` moves them unchanged through
the rest-spread. `β` is the type of the body record. -/
structure HttpAgentRequest (β φ : Type) where
  body : β
  fields : φ

/-- The body produced by `transformRequest` (delegation.ts lines 224-231). -/
structure TransformedBody (β : Type) where
  content : β
  sender_sig : Blob
  sender_delegation : List SignedDelegation
  sender_pubkey : Blob

/-- The record returned by `transformRequest` (delegation.ts lines 222-232):
the untouched non-body fields plus the new body. -/
structure TransformedRequest (β φ : Type) where
  fields : φ
  body : TransformedBody β

/-- `DelegationIdentity.transformRequest` (delegation.ts lines 219-233):
split off `body`, sign the request domain separator concatenated with the
canonical request-id digest of the body (via the inner signer), and return
the remaining fields together with the enveloped body. `requestIdB` is the
external `requestIdOf` digest primitive at the body's type. -/
def DelegationIdentity.transformRequest {β φ : Type} (requestIdB : β → Blob)
    (d : DelegationIdentity) (request : HttpAgentRequest β φ) :
    TransformedRequest β φ :=
  let requestIdv := requestIdB request.body
  { fields := request.fields
    body :=
      { content := request.body
        sender_sig := d.sign (requestDomainSeparator ++ requestIdv)
        sender_delegation := d.chain.delegations
        sender_pubkey := d.chain.publicKey } }

/-- A chain none of whose delegations carries a `targets` restriction. -/
def DelegationChain.noTargets (c : DelegationChain) : Prop :=
  ∀ sd ∈ c.delegations, sd.delegation.targets = none

/-! ## Claims about the builder and the identity wrapper -/

/-- C4: `DelegationChain.create` with a previous chain of length n yields a
chain of length n+1 whose first n entries are previous's entries unchanged,
whose appended last entry is the newly created signed delegation, and whose
root public key equals previous's; without a previous chain it yields exactly
the one new signed delegation with the delegating identity's DER public key
as root. -/
theorem create_appends_and_preserves_root (requestId : Delegation → Blob)
    (frm : SignIdentity) (toKey : PublicKey) (expirationMs : Int) :
    (∀ p : DelegationChain,
      (DelegationChain.create requestId frm toKey expirationMs (some p)).delegations
          = p.delegations ++ [createSingleDelegation requestId frm toKey expirationMs none]
        ∧ (DelegationChain.create requestId frm toKey expirationMs (some p)).delegations.length
          = p.delegations.length + 1
        ∧ (DelegationChain.create requestId frm toKey expirationMs
            (some p)).delegations.take p.delegations.length = p.delegations
        ∧ (DelegationChain.create requestId frm toKey expirationMs (some p)).publicKey
          = p.publicKey)
      ∧ (DelegationChain.create requestId frm toKey expirationMs none).delegations
          = [createSingleDelegation requestId frm toKey expirationMs none]
      ∧ (DelegationChain.create requestId frm toKey expirationMs none).publicKey
          = frm.getPublicKey.toDer := by
  refine ⟨fun p => ⟨rfl, ?_, ?_, rfl⟩, rfl, rfl⟩
  · simp [DelegationChain.create]
  · simp [DelegationChain.create]

/-- C5: the signature stored in the signed delegation built by
`_createSingleDelegation` is exactly the delegating signer's `sign` applied
to the delegation domain separator — the single byte 0x1A followed by the
ASCII string "ic-request-auth-delegation" — concatenated with the canonical
request-id digest of the delegation record. -/
theorem createSingleDelegation_signature (requestId : Delegation → Blob)
    (frm : SignIdentity) (toKey : PublicKey) (expirationMs : Int)
    (targets : Option (List Principal)) :
    (createSingleDelegation requestId frm toKey expirationMs targets).signature
        = frm.sign ((0x1A :: asciiBytes "ic-request-auth-delegation")
            ++ requestId
              { pubkey := toKey.toDer
                expiration := BigNum.int (expirationMs * 1000000)
                targets := targets })
      ∧ domainSeparator = 0x1A :: asciiBytes "ic-request-auth-delegation" := by
  constructor
  · rfl
  · rfl

/-- C6: for an inner signer and a chain whose root public key differs from
the inner signer's own key, `fromDelegation(inner, C).getPublicKey().toDer()`
is exactly the chain's root public key and never the inner signer's key. -/
theorem delegationIdentity_getPublicKey (inner : SignIdentity)
    (c : DelegationChain) (h : c.publicKey ≠ inner.getPublicKey.toDer) :
    (DelegationIdentity.fromDelegation inner c).getPublicKey.toDer = c.publicKey
      ∧ (DelegationIdentity.fromDelegation inner c).getPublicKey.toDer
          ≠ inner.getPublicKey.toDer := by
  exact ⟨rfl, h⟩

/-- Witness for C6 at a concrete inner signer and chain with differing keys. -/
theorem delegationIdentity_getPublicKey_witness :
    (DelegationIdentity.fromDelegation ⟨id, ⟨[1]⟩⟩ ⟨[], [2]⟩).getPublicKey.toDer = [2]
      ∧ (DelegationIdentity.fromDelegation ⟨id, ⟨[1]⟩⟩ ⟨[], [2]⟩).getPublicKey.toDer ≠ [1] :=
  delegationIdentity_getPublicKey ⟨id, ⟨[1]⟩⟩ ⟨[], [2]⟩ (by decide)

/-- C3: `transformRequest` keeps every non-body field unchanged and replaces
the body with the envelope holding the original body, the inner signer's
signature over the request domain separator (byte 0x0A then ASCII
"ic-request") concatenated with the canonical request-id digest of the body,
the chain's delegation sequence, and the chain's root public key. -/
theorem transformRequest_spec {β φ : Type} (requestIdB : β → Blob)
    (inner : SignIdentity) (c : DelegationChain) (body : β) (fields : φ) :
    ((DelegationIdentity.fromDelegation inner c).transformRequest requestIdB
        ⟨body, fields⟩).fields = fields
      ∧ ((DelegationIdentity.fromDelegation inner c).transformRequest requestIdB
          ⟨body, fields⟩).body.content = body
      ∧ ((DelegationIdentity.fromDelegation inner c).transformRequest requestIdB
          ⟨body, fields⟩).body.sender_sig
        = inner.sign ((0x0A :: asciiBytes "ic-request") ++ requestIdB body)
      ∧ ((DelegationIdentity.fromDelegation inner c).transformRequest requestIdB
          ⟨body, fields⟩).body.sender_delegation = c.delegations
      ∧ ((DelegationIdentity.fromDelegation inner c).transformRequest requestIdB
          ⟨body, fields⟩).body.sender_pubkey = c.publicKey := by
  exact ⟨rfl, rfl, rfl, rfl, rfl⟩

/-- C8: the expiration stored by the delegation builder is the millisecond
epoch value times exactly 1,000,000, held as an arbitrary-precision integer;
at a concrete far-future date (year 2300) the stored nanosecond value exceeds
2^63 and is still represented exactly. -/
theorem expiration_nanoseconds (requestId : Delegation → Blob)
    (frm : SignIdentity) (toKey : PublicKey) :
    (∀ (expirationMs : Int) (targets : Option (List Principal)),
        (createSingleDelegation requestId frm toKey expirationMs targets).delegation.expiration
          = BigNum.int (expirationMs * 1000000))
      ∧ (createSingleDelegation requestId frm toKey 10413792000000 none).delegation.expiration
          = BigNum.int 10413792000000000000
      ∧ (2 : Int) ^ 63 < 10413792000000000000 := by
  refine ⟨fun expirationMs targets => rfl, rfl, by norm_num⟩

/-- C9: `DelegationChain.create` never supplies targets: a chain freshly
built by `create` has no targets anywhere, and extending a chain with no
targets through `create` again yields a chain with no targets. -/
theorem create_no_targets (requestId : Delegation → Blob) (frm : SignIdentity)
    (toKey : PublicKey) (expirationMs : Int) :
    (DelegationChain.create requestId frm toKey expirationMs none).noTargets
      ∧ ∀ p : DelegationChain, p.noTargets →
        (DelegationChain.create requestId frm toKey expirationMs (some p)).noTargets := by
  constructor
  · intro sd hsd
    simp [DelegationChain.create] at hsd
    subst hsd
    rfl
  · intro p hp sd hsd
    simp [DelegationChain.create] at hsd
    rcases hsd with hsd | hsd
    · exact hp sd hsd
    · subst hsd
      rfl

/-- Witness for C9: a fresh chain and its extension, both built by `create`
at concrete inputs, carry no targets. -/
theorem create_no_targets_witness :
    (DelegationChain.create (fun _ => []) ⟨id, ⟨[1]⟩⟩ ⟨[2]⟩ 5
      (some (DelegationChain.create (fun _ => []) ⟨id, ⟨[1]⟩⟩ ⟨[2]⟩ 5 none))).noTargets :=
  (create_no_targets (fun _ => []) ⟨id, ⟨[1]⟩⟩ ⟨[2]⟩ 5).2 _
    (create_no_targets (fun _ => []) ⟨id, ⟨[1]⟩⟩ ⟨[2]⟩ 5).1

/-! ## JSON values and the (de)serialization layer

`toJSON` / `fromJSON` are modelled at the level of parsed JSON values: the
source calls `JSON.parse` / relies on `JSON.stringify`, whose text-level
round-trip is the standard external JSON codec and is not part of the
claims. A JS `undefined` (absent property) is modelled as `Option.none` at
the use sites. -/

/-- A parsed JSON value. -/
inductive Json where
  | null
  | bool (b : Bool)
  | num (i : Int)
  | str (s : String)
  | arr (elems : List Json)
  | obj (fields : List (String × Json))

/-- First binding of a key in a JSON object's field list. -/
def lookupField : List (String × Json) → String → Option Json
  | [], _ => none
  | (k, v) :: rest, key => if k = key then some v else lookupField rest key

/-- JS property access `value[key]` on a parsed JSON value: `none` models
`undefined` (absent key, or a receiver with no such property). -/
def getField : Json → String → Option Json
  | .obj fields, key => lookupField fields key
  | _, _ => none

/-- Lower-case hex digit for a value below 16. -/
def hexChar (n : Nat) : Char :=
  if n < 10 then Char.ofNat (48 + n) else Char.ofNat (87 + n)

/-- Two lower-case hex digits of one byte, as `Buffer.toString('hex')`
renders each byte (external primitive). -/
def byteToHex (n : Nat) : String :=
  ⟨[hexChar (n % 256 / 16), hexChar (n % 256 % 16)]⟩

/-- `blob.toString('hex')` (external primitive): lower-case hex, two digits
per byte. -/
def hexEncode (b : Blob) : String :=
  String.join (b.map byteToHex)

/-- Value of one hex digit character (either case), `none` otherwise. -/
def hexVal (c : Char) : Option Nat :=
  if 48 ≤ c.toNat ∧ c.toNat ≤ 57 then some (c.toNat - 48)
  else if 97 ≤ c.toNat ∧ c.toNat ≤ 102 then some (c.toNat - 87)
  else if 65 ≤ c.toNat ∧ c.toNat ≤ 70 then some (c.toNat - 55)
  else none

/-- `Buffer.from(s, 'hex')` (external primitive behind `blobFromHex`):
decode hex digit pairs from the front, stopping at the first character pair
that is not two hex digits (a lone trailing character is dropped). -/
def hexDecodeChars : List Char → Blob
  | c1 :: c2 :: rest =>
    (match hexVal c1, hexVal c2 with
      | some hi, some lo => (16 * hi + lo) :: hexDecodeChars rest
      | _, _ => [])
  | _ => []

/-- `blobFromHex` of `@dfinity/agent` (external primitive). -/
def blobFromHex (s : String) : Blob :=
  hexDecodeChars s.data

mutual

/-- JS `String(v)` on a parsed JSON value (ECMAScript ToString): arrays join
their elements with commas rendering `null` elements empty, plain objects
render as `[object Object]`. -/
def jsToString : Json → String
  | .null => "null"
  | .bool b => if b then "true" else "false"
  | .num i => toString i
  | .str s => s
  | .arr elems => jsArrayJoin elems
  | .obj _ => "[object Object]"

/-- Comma-join of `Array.prototype.toString`, `null` elements empty. -/
def jsArrayJoin : List Json → String
  | [] => ""
  | [.null] => ""
  | [x] => jsToString x
  | .null :: rest => "," ++ jsArrayJoin rest
  | x :: rest => jsToString x ++ "," ++ jsArrayJoin rest

end

/-- Accumulate the value of a base-16 digit string. -/
def parseHexNatAux (acc : Nat) : List Char → Nat
  | [] => acc
  | c :: rest => parseHexNatAux (16 * acc + (hexVal c).getD 0) rest

/-- Modelled from the spec: the external bignumber.js constructor
`new BigNumber(v, 16)` — the spec's "`expiration` is parsed as a base-16
integer" — accepting an optional sign followed by base-16 digits, and
producing the library's documented not-a-number value (never an error) on
any other input. -/
def parseHex16 (s : String) : BigNum :=
  let signed : Bool × List Char :=
    match s.data with
    | '-' :: rest => (true, rest)
    | '+' :: rest => (false, rest)
    | _ => (false, s.data)
  if signed.2 ≠ [] ∧ signed.2.all (fun c => (hexVal c).isSome) then
    BigNum.int ((if signed.1 then -1 else 1) * (parseHexNatAux 0 signed.2 : Nat))
  else BigNum.nan

/-- `new BigNumber(expiration, 16)` on the raw JSON value found at the
`expiration` key (delegation.ts line 146): non-string values go through the
JS ToString conversion, an absent value stringifies as `undefined`. -/
def parseExpiration (v : Option Json) : BigNum :=
  match v with
  | none => parseHex16 "undefined"
  | some j => parseHex16 (jsToString j)

/-- `expiration.toString(16)` of bignumber.js (external primitive): plain
lower-case base-16 digits with a leading minus for negatives, `NaN` for the
not-a-number value. -/
def bigToString16 : BigNum → String
  | .nan => "NaN"
  | .int i =>
    if i < 0 then "-" ++ String.mk (Nat.toDigits 16 i.natAbs)
    else String.mk (Nat.toDigits 16 i.natAbs)

/-- `parseBlob` (delegation.ts lines 43-49): reject any value that is not a
string of at least 64 characters, then hex-decode it. The argument is the
raw JSON value (`none` models JS `undefined`). -/
def parseBlob (value : Option Json) : Except String Blob :=
  match value with
  | some (.str s) =>
    if s.length < 64 then .error "Invalid public key."
    else .ok (blobFromHex s)
  | _ => .error "Invalid public key."

/-- One element of the `targets` array in `fromJSON` (delegation.ts lines
148-153): must be a string, which is parsed into a principal. -/
def parseTarget (t : Json) : Except String Principal :=
  match t with
  | .str s => .ok (Principal.fromText s)
  | _ => .error "Invalid target."

/-- JS `Array.prototype.map` with a possibly-throwing callback: elements are
processed left to right and the first exception aborts the whole map. -/
def mapME {α β : Type} (f : α → Except String β) : List α → Except String (List β)
  | [] => .ok []
  | x :: rest =>
    match f x with
    | .error e => .error e
    | .ok y =>
      match mapME f rest with
      | .error e => .error e
      | .ok ys => .ok (y :: ys)

/-- The per-entry body of the `delegations.map` in `fromJSON`
(delegation.ts lines 137-158): destructure `delegation` (JS raises a
TypeError when it is absent), reject a present non-array `targets`, then
build the entry evaluating `parseBlob(pubkey)`, `new BigNumber(expiration,
16)`, the `targets` element map and `parseBlob(signature)` in source
order. -/
def parseSignedDelegation (sd : Json) : Except String SignedDelegation :=
  match getField sd "delegation" with
  | none => .error "TypeError: cannot destructure."
  | some d =>
    match getField d "targets" with
    | some (.arr ts) =>
      (match parseBlob (getField d "pubkey") with
        | .error e => .error e
        | .ok pubkey =>
          match mapME parseTarget ts with
          | .error e => .error e
          | .ok targets =>
            match parseBlob (getField sd "signature") with
            | .error e => .error e
            | .ok signature =>
              .ok ⟨⟨pubkey, parseExpiration (getField d "expiration"),
                    some targets⟩, signature⟩)
    | some _ => .error "Invalid targets."
    | none =>
      match parseBlob (getField d "pubkey") with
      | .error e => .error e
      | .ok pubkey =>
        match parseBlob (getField sd "signature") with
        | .error e => .error e
        | .ok signature =>
          .ok ⟨⟨pubkey, parseExpiration (getField d "expiration"), none⟩, signature⟩

/-- `DelegationChain.fromJSON` (delegation.ts lines 130-161) at the
parsed-JSON-value level: require `delegations` to be an array, map every
entry through the per-entry parser, then parse the root `publicKey`. -/
def DelegationChain.fromJSON (j : Json) : Except String DelegationChain :=
  match getField j "delegations" with
  | some (.arr ds) =>
    (match mapME parseSignedDelegation ds with
      | .error e => .error e
      | .ok parsed =>
        match parseBlob (getField j "publicKey") with
        | .error e => .error e
        | .ok publicKey => .ok ⟨parsed, publicKey⟩)
  | _ => .error "Invalid delegations."

/-- The delegation member of one `toJSON` entry (delegation.ts lines
173-177): `{ expiration: delegation.expiration.toString(16), pubkey:
delegation.pubkey.toString('hex'), ...(delegation.targets &&
delegation.targets.map(p => p.toText())) }`. Spreading the mapped JS array
into the object literal contributes one property per array index — keys
"0", "1", ... — and no `targets` property. -/
def delegationToJson (d : Delegation) : Json :=
  .obj ([("expiration", Json.str (bigToString16 d.expiration)),
         ("pubkey", Json.str (hexEncode d.pubkey))]
    ++ (match d.targets with
        | some ts => (ts.map Principal.toText).enum.map
            (fun e => (toString e.1, Json.str e.2))
        | none => []))

/-- One entry of the `delegations` array of `toJSON` (delegation.ts lines
170-180). -/
def signedDelegationToJson (sd : SignedDelegation) : Json :=
  .obj [("delegation", delegationToJson sd.delegation),
        ("signature", Json.str (hexEncode sd.signature))]

/-- `DelegationChain.toJSON` (delegation.ts lines 168-183). -/
def DelegationChain.toJSON (c : DelegationChain) : Json :=
  .obj [("delegations", Json.arr (c.delegations.map signedDelegationToJson)),
        ("publicKey", Json.str (hexEncode c.publicKey))]

/-! ## The serialization of targets: refuting C1 and C2

`toJSON` writes `...(delegation.targets && delegation.targets.map(p =>
p.toText()))` (delegation.ts line 176): the spread of a JS **array** into an
object literal contributes the array's indices as keys, so the produced
delegation object carries properties "0", "1", ... and never a `targets`
property — unlike the `...(targets && { targets })` wrapping used by
`_createSingleDelegation` (line 67) and `fromJSON` (line 147). `fromJSON`
therefore finds no `targets` key and silently reconstructs an unrestricted
delegation. -/

/-- A concrete one-entry chain whose delegation carries a targets set (the
anonymous management principal "aaaaa-aa"), used to refute C1. -/
def targetsChainC1 : DelegationChain :=
  { delegations := [
      { delegation := { pubkey := List.replicate 32 0
                        expiration := BigNum.int 42
                        targets := some [Principal.fromText "aaaaa-aa"] }
        signature := List.replicate 32 1 }]
    publicKey := List.replicate 32 2 }

/-- What `fromJSON (toJSON targetsChainC1)` actually reconstructs: the same
chain with the targets restriction silently dropped. -/
def strippedChainC1 : DelegationChain :=
  { delegations := [
      { delegation := { pubkey := List.replicate 32 0
                        expiration := BigNum.int 42
                        targets := none }
        signature := List.replicate 32 1 }]
    publicKey := List.replicate 32 2 }

/-- C1: refuted at `targetsChainC1` — parsing the serialization of a chain
whose delegation carries a targets set succeeds but loses the targets list,
so the reconstructed chain is not field-for-field equal to the original
(pubkeys, expirations, signatures and root key do round-trip here; the
targets do not). -/
theorem fromJSON_toJSON_drops_targets :
    DelegationChain.fromJSON targetsChainC1.toJSON = Except.ok strippedChainC1
      ∧ strippedChainC1 ≠ targetsChainC1
      ∧ targetsChainC1.delegations.map (fun sd => sd.delegation.targets)
          = [some [Principal.fromText "aaaaa-aa"]]
      ∧ strippedChainC1.delegations.map (fun sd => sd.delegation.targets) = [none] := by
  exact ⟨rfl, by decide, rfl, rfl⟩

/-- A concrete signed delegation with a targets set, used to refute C2. -/
def targetsSignedC2 : SignedDelegation :=
  { delegation := { pubkey := List.replicate 32 7
                    expiration := BigNum.int 77
                    targets := some [Principal.fromText "aaaaa-aa"] }
    signature := List.replicate 32 8 }

/-- The one-entry chain holding `targetsSignedC2`, used to refute C2. -/
def targetsChainC2 : DelegationChain :=
  { delegations := [targetsSignedC2]
    publicKey := List.replicate 32 9 }

/-- C2: refuted at `targetsChainC2` — `toJSON` does produce the `publicKey`
hex, the ordered `delegations` list and the per-entry `pubkey`/`expiration`/
`signature` hex encodings, but for a delegation that has targets the
delegation object carries **no** `targets` key: the spread of the mapped
array lands the recipient text under the index key "0" instead. -/
theorem toJSON_has_no_targets_key :
    getField targetsChainC2.toJSON "publicKey"
        = some (Json.str (hexEncode targetsChainC2.publicKey))
      ∧ getField targetsChainC2.toJSON "delegations"
        = some (Json.arr [signedDelegationToJson targetsSignedC2])
      ∧ getField (delegationToJson targetsSignedC2.delegation) "pubkey"
        = some (Json.str (hexEncode targetsSignedC2.delegation.pubkey))
      ∧ getField (delegationToJson targetsSignedC2.delegation) "expiration"
        = some (Json.str (bigToString16 targetsSignedC2.delegation.expiration))
      ∧ getField (signedDelegationToJson targetsSignedC2) "signature"
        = some (Json.str (hexEncode targetsSignedC2.signature))
      ∧ targetsSignedC2.delegation.targets = some [Principal.fromText "aaaaa-aa"]
      ∧ getField (delegationToJson targetsSignedC2.delegation) "targets" = none
      ∧ getField (delegationToJson targetsSignedC2.delegation) "0"
        = some (Json.str "aaaaa-aa") := by
  exact ⟨rfl, rfl, rfl, rfl, rfl, rfl, rfl, rfl⟩

/-! ## Validation behaviour of `fromJSON` (C7, C10) -/

/-- A JSON value that `parseBlob` accepts: a string of at least 64
characters (`none` models an absent property). -/
def goodBlob : Option Json → Bool
  | some (.str s) => 64 ≤ s.length
  | _ => false

/-- Is this JSON value a string? -/
def Json.isText : Json → Bool
  | .str _ => true
  | _ => false

/-- A JSON array all of whose elements are strings — the accepted shape of a
present `targets` value. -/
def isTextArray : Json → Bool
  | .arr ts => ts.all Json.isText
  | _ => false

/-- One `delegations` entry is malformed in one of the ways C7 names: a
present `targets` value that is not an array of strings, or a `pubkey` or
`signature` value that is not a string of at least 64 characters. -/
def entryBadC7 (sd : Json) : Bool :=
  (match getField sd "delegation" with
    | some d =>
      (match getField d "targets" with
        | some t => !(isTextArray t)
        | none => false)
      || !(goodBlob (getField d "pubkey"))
    | none => false)
  || !(goodBlob (getField sd "signature"))

/-- One `delegations` entry passes every `fromJSON` check that does not
involve the `expiration` field: `delegation` is present, a present `targets`
is an array of strings, and `pubkey` and `signature` are strings of at least
64 characters. The `expiration` value is left completely unconstrained. -/
def entryOkExceptExp (sd : Json) : Bool :=
  match getField sd "delegation" with
  | some d =>
    (match getField d "targets" with
      | some t => isTextArray t
      | none => true)
    && goodBlob (getField d "pubkey")
    && goodBlob (getField sd "signature")
  | none => false

/-- The expiration value `fromJSON` stores for one entry: `new
BigNumber(value, 16)` of whatever sits at the `expiration` key. -/
def expOf (sd : Json) : BigNum :=
  match getField sd "delegation" with
  | some d => parseExpiration (getField d "expiration")
  | none => BigNum.nan

/-- `parseBlob` raises on every value `goodBlob` rejects. -/
theorem parseBlob_error_of_bad (v : Option Json) (h : goodBlob v = false) :
    ∃ e, parseBlob v = .error e := by
  cases v with
  | none => exact ⟨_, rfl⟩
  | some j =>
    cases j with
    | str s =>
      simp only [goodBlob, decide_eq_false_iff_not, not_le] at h
      exact ⟨"Invalid public key.", by simp [parseBlob, h]⟩
    | null => exact ⟨_, rfl⟩
    | bool b => exact ⟨_, rfl⟩
    | num i => exact ⟨_, rfl⟩
    | arr elems => exact ⟨_, rfl⟩
    | obj fields => exact ⟨_, rfl⟩

/-- `parseBlob` succeeds on every value `goodBlob` accepts. -/
theorem parseBlob_ok_of_good (v : Option Json) (h : goodBlob v = true) :
    ∃ b, parseBlob v = .ok b := by
  cases v with
  | none => simp [goodBlob] at h
  | some j =>
    cases j with
    | str s =>
      simp only [goodBlob, decide_eq_true_eq] at h
      exact ⟨blobFromHex s, by simp [parseBlob, Nat.not_lt.mpr h]⟩
    | null => simp [goodBlob] at h
    | bool b => simp [goodBlob] at h
    | num i => simp [goodBlob] at h
    | arr elems => simp [goodBlob] at h
    | obj fields => simp [goodBlob] at h

/-- A throwing element-wise map that returned a list processed every element
without an exception. -/
theorem mapME_ok_mem {α β : Type} (f : α → Except String β) (l : List α) :
    ∀ rs : List β, mapME f l = .ok rs → ∀ x ∈ l, ∃ r, f x = .ok r := by
  induction l with
  | nil => intro rs _ x hx; simp at hx
  | cons a rest ih =>
    intro rs h x hx
    rw [mapME] at h
    cases hfa : f a with
    | error e => rw [hfa] at h; simp at h
    | ok y =>
      rw [hfa] at h
      cases hrest : mapME f rest with
      | error e => rw [hrest] at h; simp at h
      | ok ys =>
        rw [hrest] at h
        rcases List.mem_cons.mp hx with hx | hx
        · subst hx; exact ⟨y, hfa⟩
        · exact ih ys hrest x hx

/-- The `targets` element map succeeds when every element is a string. -/
theorem mapME_parseTarget_ok (ts : List Json) (h : ts.all Json.isText = true) :
    ∃ ps, mapME parseTarget ts = .ok ps := by
  induction ts with
  | nil => exact ⟨[], rfl⟩
  | cons t rest ih =>
    rw [List.all_cons, Bool.and_eq_true] at h
    obtain ⟨ps, hps⟩ := ih h.2
    cases t with
    | str s =>
      exact ⟨Principal.fromText s :: ps, by rw [mapME]; simp [parseTarget, hps]⟩
    | null => simp [Json.isText] at h
    | bool b => simp [Json.isText] at h
    | num i => simp [Json.isText] at h
    | arr elems => simp [Json.isText] at h
    | obj fields => simp [Json.isText] at h

/-- The `targets` element map raises when some element is not a string. -/
theorem mapME_parseTarget_error (ts : List Json) (h : ts.all Json.isText = false) :
    ∃ e, mapME parseTarget ts = .error e := by
  induction ts with
  | nil => simp at h
  | cons t rest ih =>
    rw [List.all_cons, Bool.and_eq_false_iff] at h
    cases t with
    | str s =>
      rcases h with h | h
      · simp [Json.isText] at h
      · obtain ⟨e, he⟩ := ih h
        exact ⟨e, by rw [mapME]; simp [parseTarget, he]⟩
    | null => exact ⟨"Invalid target.", by rw [mapME]; simp [parseTarget]⟩
    | bool b => exact ⟨"Invalid target.", by rw [mapME]; simp [parseTarget]⟩
    | num i => exact ⟨"Invalid target.", by rw [mapME]; simp [parseTarget]⟩
    | arr elems => exact ⟨"Invalid target.", by rw [mapME]; simp [parseTarget]⟩
    | obj fields => exact ⟨"Invalid target.", by rw [mapME]; simp [parseTarget]⟩

/-- A `delegations` entry malformed in one of the ways C7 names makes the
per-entry parser raise. -/
theorem parseSignedDelegation_error_of_bad (sd : Json) (h : entryBadC7 sd = true) :
    ∃ e, parseSignedDelegation sd = .error e := by
  cases hd : getField sd "delegation" with
  | none =>
    exact ⟨"TypeError: cannot destructure.", by simp [parseSignedDelegation, hd]⟩
  | some d =>
    simp only [entryBadC7, hd] at h
    cases ht : getField d "targets" with
    | none =>
      simp only [ht, Bool.false_or, Bool.or_eq_true, Bool.not_eq_true'] at h
      cases hpk : goodBlob (getField d "pubkey") with
      | false =>
        obtain ⟨e, he⟩ := parseBlob_error_of_bad _ hpk
        exact ⟨e, by simp [parseSignedDelegation, hd, ht, he]⟩
      | true =>
        obtain ⟨b, hb⟩ := parseBlob_ok_of_good _ hpk
        have hsig : goodBlob (getField sd "signature") = false := by
          cases h with
          | inl h => rw [hpk] at h; exact Bool.noConfusion h
          | inr h => exact h
        obtain ⟨e, he⟩ := parseBlob_error_of_bad _ hsig
        exact ⟨e, by simp [parseSignedDelegation, hd, ht, hb, he]⟩
    | some t =>
      cases t with
      | arr ts =>
        simp only [ht, isTextArray, Bool.or_eq_true, Bool.not_eq_true'] at h
        cases hpk : goodBlob (getField d "pubkey") with
        | false =>
          obtain ⟨e, he⟩ := parseBlob_error_of_bad _ hpk
          exact ⟨e, by simp [parseSignedDelegation, hd, ht, he]⟩
        | true =>
          obtain ⟨b, hb⟩ := parseBlob_ok_of_good _ hpk
          cases hall : ts.all Json.isText with
          | false =>
            obtain ⟨e, he⟩ := mapME_parseTarget_error ts hall
            exact ⟨e, by simp [parseSignedDelegation, hd, ht, hb, he]⟩
          | true =>
            have hsig : goodBlob (getField sd "signature") = false := by
              rcases h with (h | h) | h
              · rw [hall] at h; exact Bool.noConfusion h
              · rw [hpk] at h; exact Bool.noConfusion h
              · exact h
            obtain ⟨ps, hps⟩ := mapME_parseTarget_ok ts hall
            obtain ⟨e, he⟩ := parseBlob_error_of_bad _ hsig
            exact ⟨e, by simp [parseSignedDelegation, hd, ht, hb, hps, he]⟩
      | null => exact ⟨"Invalid targets.", by simp [parseSignedDelegation, hd, ht]⟩
      | bool b => exact ⟨"Invalid targets.", by simp [parseSignedDelegation, hd, ht]⟩
      | num i => exact ⟨"Invalid targets.", by simp [parseSignedDelegation, hd, ht]⟩
      | str s => exact ⟨"Invalid targets.", by simp [parseSignedDelegation, hd, ht]⟩
      | obj fields => exact ⟨"Invalid targets.", by simp [parseSignedDelegation, hd, ht]⟩

/-- A `delegations` entry passing every non-expiration check parses
successfully, storing `new BigNumber(value, 16)` of whatever sits at its
`expiration` key. -/
theorem parseSignedDelegation_ok_of_entryOk (sd : Json) (h : entryOkExceptExp sd = true) :
    ∃ r, parseSignedDelegation sd = .ok r ∧ r.delegation.expiration = expOf sd := by
  cases hd : getField sd "delegation" with
  | none => simp [entryOkExceptExp, hd] at h
  | some d =>
    simp only [entryOkExceptExp, hd, Bool.and_eq_true] at h
    obtain ⟨⟨htg, hpk⟩, hsig⟩ := h
    obtain ⟨b, hb⟩ := parseBlob_ok_of_good _ hpk
    obtain ⟨s, hs⟩ := parseBlob_ok_of_good _ hsig
    cases ht : getField d "targets" with
    | none =>
      refine ⟨⟨⟨b, parseExpiration (getField d "expiration"), none⟩, s⟩, ?_, ?_⟩
      · simp [parseSignedDelegation, hd, ht, hb, hs]
      · simp [expOf, hd]
    | some t =>
      rw [ht] at htg
      cases t with
      | arr ts =>
        simp only [isTextArray] at htg
        obtain ⟨ps, hps⟩ := mapME_parseTarget_ok ts htg
        refine ⟨⟨⟨b, parseExpiration (getField d "expiration"), some ps⟩, s⟩, ?_, ?_⟩
        · simp [parseSignedDelegation, hd, ht, hb, hps, hs]
        · simp [expOf, hd]
      | null => simp [isTextArray] at htg
      | bool bb => simp [isTextArray] at htg
      | num i => simp [isTextArray] at htg
      | str ss => simp [isTextArray] at htg
      | obj fields => simp [isTextArray] at htg

/-- When every entry passes the non-expiration checks, the entry map
succeeds and stores exactly the parsed expirations. -/
theorem mapME_entries_ok (ds : List Json)
    (h : ∀ sd ∈ ds, entryOkExceptExp sd = true) :
    ∃ rs, mapME parseSignedDelegation ds = .ok rs
      ∧ rs.map (fun r => r.delegation.expiration) = ds.map expOf := by
  induction ds with
  | nil => exact ⟨[], rfl, rfl⟩
  | cons a rest ih =>
    obtain ⟨r, hr, hre⟩ :=
      parseSignedDelegation_ok_of_entryOk a (h a (List.mem_cons_self a rest))
    obtain ⟨rs, hrs, hmap⟩ := ih (fun sd hsd => h sd (List.mem_cons_of_mem a hsd))
    refine ⟨r :: rs, ?_, ?_⟩
    · rw [mapME]; simp [hr, hrs]
    · simp [hmap, hre]

/-- C7: `DelegationChain.fromJSON` raises an error (and returns no chain)
whenever the `delegations` value is absent or not an array, whenever some
entry has a present `targets` that is not an array of strings or a `pubkey`
or `signature` that is not a string of at least 64 characters, and whenever
the root `publicKey` is not a string of at least 64 characters; each raise
is the synchronous propagation of the throw at the malformed input. -/
theorem fromJSON_validation_errors (j : Json) :
    ((∀ l, getField j "delegations" ≠ some (Json.arr l)) →
        ∃ e, DelegationChain.fromJSON j = .error e)
      ∧ (∀ l, getField j "delegations" = some (Json.arr l) →
          ∀ sd ∈ l, entryBadC7 sd = true →
            ∃ e, DelegationChain.fromJSON j = .error e)
      ∧ (goodBlob (getField j "publicKey") = false →
          ∃ e, DelegationChain.fromJSON j = .error e) := by
  refine ⟨?_, ?_, ?_⟩
  · intro h
    cases hg : getField j "delegations" with
    | none => exact ⟨"Invalid delegations.", by simp [DelegationChain.fromJSON, hg]⟩
    | some v =>
      cases v with
      | arr l => exact absurd hg (h l)
      | null => exact ⟨"Invalid delegations.", by simp [DelegationChain.fromJSON, hg]⟩
      | bool b => exact ⟨"Invalid delegations.", by simp [DelegationChain.fromJSON, hg]⟩
      | num i => exact ⟨"Invalid delegations.", by simp [DelegationChain.fromJSON, hg]⟩
      | str s => exact ⟨"Invalid delegations.", by simp [DelegationChain.fromJSON, hg]⟩
      | obj fs => exact ⟨"Invalid delegations.", by simp [DelegationChain.fromJSON, hg]⟩
  · intro l hl sd hsd hbad
    obtain ⟨e, he⟩ := parseSignedDelegation_error_of_bad sd hbad
    cases hm : mapME parseSignedDelegation l with
    | error e2 => exact ⟨e2, by simp [DelegationChain.fromJSON, hl, hm]⟩
    | ok rs =>
      obtain ⟨r, hr⟩ := mapME_ok_mem parseSignedDelegation l rs hm sd hsd
      rw [he] at hr
      exact absurd hr (by simp)
  · intro hpk
    obtain ⟨e, he⟩ := parseBlob_error_of_bad _ hpk
    cases hg : getField j "delegations" with
    | none => exact ⟨"Invalid delegations.", by simp [DelegationChain.fromJSON, hg]⟩
    | some v =>
      cases v with
      | arr l =>
        cases hm : mapME parseSignedDelegation l with
        | error e2 => exact ⟨e2, by simp [DelegationChain.fromJSON, hg, hm]⟩
        | ok rs => exact ⟨e, by simp [DelegationChain.fromJSON, hg, hm, he]⟩
      | null => exact ⟨"Invalid delegations.", by simp [DelegationChain.fromJSON, hg]⟩
      | bool b => exact ⟨"Invalid delegations.", by simp [DelegationChain.fromJSON, hg]⟩
      | num i => exact ⟨"Invalid delegations.", by simp [DelegationChain.fromJSON, hg]⟩
      | str s => exact ⟨"Invalid delegations.", by simp [DelegationChain.fromJSON, hg]⟩
      | obj fs => exact ⟨"Invalid delegations.", by simp [DelegationChain.fromJSON, hg]⟩

/-- C10: `fromJSON` never raises because of `expiration` — on any input
whose `delegations` is an array of entries passing every non-expiration
check and whose root `publicKey` passes the blob check, parsing succeeds
whatever sits at each `expiration` key, and each stored expiration is `new
BigNumber(value, 16)` of that raw value (an unparseable value yielding the
silent not-a-number big-integer, as the witness below exhibits). -/
theorem fromJSON_ignores_expiration_errors (j : Json) (ds : List Json)
    (hds : getField j "delegations" = some (Json.arr ds))
    (hok : ∀ sd ∈ ds, entryOkExceptExp sd = true)
    (hpk : goodBlob (getField j "publicKey") = true) :
    ∃ c, DelegationChain.fromJSON j = .ok c
      ∧ c.delegations.map (fun r => r.delegation.expiration) = ds.map expOf := by
  obtain ⟨rs, hm, hmap⟩ := mapME_entries_ok ds hok
  obtain ⟨b, hb⟩ := parseBlob_ok_of_good _ hpk
  exact ⟨⟨rs, b⟩, by simp [DelegationChain.fromJSON, hds, hm, hb], hmap⟩

/-- A 64-character hex string (32 bytes of 0x03) passing the blob check. -/
def hex64 : String := hexEncode (List.replicate 32 3)

/-- A JSON object with no `delegations` key at all. -/
def badJsonA : Json := Json.obj [("publicKey", Json.str hex64)]

/-- A `delegations` entry whose `pubkey` is a 2-character string. -/
def badEntryB : Json :=
  Json.obj [("delegation", Json.obj [("pubkey", Json.str "ab"),
                                     ("expiration", Json.str "2a")]),
            ("signature", Json.str hex64)]

/-- A JSON object whose only entry has a too-short `pubkey`. -/
def badJsonB : Json :=
  Json.obj [("delegations", Json.arr [badEntryB]), ("publicKey", Json.str hex64)]

/-- A JSON object whose root `publicKey` is a number, not a string. -/
def badJsonC : Json :=
  Json.obj [("delegations", Json.arr []), ("publicKey", Json.num 5)]

/-- Witness for C7: `fromJSON` raises on a missing `delegations`, on an
entry with a 2-character `pubkey`, and on a non-string root `publicKey`. -/
theorem fromJSON_validation_errors_witness :
    (∃ e, DelegationChain.fromJSON badJsonA = .error e)
      ∧ (∃ e, DelegationChain.fromJSON badJsonB = .error e)
      ∧ (∃ e, DelegationChain.fromJSON badJsonC = .error e) :=
  ⟨(fromJSON_validation_errors badJsonA).1 (fun _ h => nomatch h),
   (fromJSON_validation_errors badJsonB).2.1 [badEntryB] rfl badEntryB
     (List.mem_singleton.mpr rfl) (by decide),
   (fromJSON_validation_errors badJsonC).2.2 (by decide)⟩

/-- A `delegations` entry whose `expiration` is the string "zzz" — not
base-16 — while every other field passes validation. -/
def nanExpEntry : Json :=
  Json.obj [("delegation", Json.obj [("pubkey", Json.str hex64),
                                     ("expiration", Json.str "zzz")]),
            ("signature", Json.str hex64)]

/-- A well-formed chain serialization except for its unparseable
`expiration`. -/
def nanExpJson : Json :=
  Json.obj [("delegations", Json.arr [nanExpEntry]), ("publicKey", Json.str hex64)]

/-- Witness for C10: parsing succeeds on the entry whose `expiration` is the
non-base-16 string "zzz", storing the silent not-a-number value. -/
theorem fromJSON_ignores_expiration_errors_witness :
    ∃ c, DelegationChain.fromJSON nanExpJson = .ok c
      ∧ c.delegations.map (fun r => r.delegation.expiration) = [BigNum.nan] := by
  obtain ⟨c, hc, hmap⟩ := fromJSON_ignores_expiration_errors nanExpJson [nanExpEntry]
    rfl (by decide) (by decide)
  exact ⟨c, hc, by rw [hmap]; decide⟩
